import Mathlib

/-!
Verification of the reaction-toggle / scoring / challenge engine of the
"Gioco Messaggeria" repository.

The definitions below are a shallow embedding of the server logic:

* the Deno server (`src/supabase/functions/server/index.tsx`): the
  `add-reaction` handler (exclusive toggle), the `admin/table-stats`
  leaderboard, the challenge endpoints (`admin/create-challenge`,
  `challenges/active`, `challenges/:id`, `admin/end-challenge/:id`) and the
  `determineWinner` helper, and the `add-user-to-table` presence handler;
* the Express backend (`backend/src/index.ts`): its `add-reaction` handler
  (per-kind toggle) and its `add-user-to-table` handler.

JavaScript objects used as string-keyed dictionaries are modelled as
association lists in insertion order (new keys are appended at the end,
`delete` keeps the order of the other keys); this matches JS enumeration
order for the non-numeric keys used here.  Timestamps (`getTime()`
milliseconds) are modelled as `Int`, scores as `ℚ` (all point weights are
exactly representable binary fractions, so float arithmetic is exact on
them).
-/

/-- The four reaction kinds (`validReactions = ['heart','thumbsup','fire','laugh']`). -/
inductive RKind : Type
  | heart
  | thumbsup
  | fire
  | laugh
deriving DecidableEq, Repr

/-- Iteration order of `allReactionTypes` in the Deno `add-reaction` handler. -/
def kindOrder : List RKind := [.heart, .thumbsup, .fire, .laugh]

/-- The four-counter reaction tally of a message (`message.reactions`). -/
structure Reactions where
  heart : Nat
  thumbsup : Nat
  fire : Nat
  laugh : Nat
deriving DecidableEq, Repr

/-- Read one counter of the tally. -/
def Reactions.get (r : Reactions) : RKind → Nat
  | .heart => r.heart
  | .thumbsup => r.thumbsup
  | .fire => r.fire
  | .laugh => r.laugh

/-- Overwrite one counter of the tally. -/
def Reactions.set (r : Reactions) : RKind → Nat → Reactions
  | .heart, n => { r with heart := n }
  | .thumbsup, n => { r with thumbsup := n }
  | .fire, n => { r with fire := n }
  | .laugh, n => { r with laugh := n }

/-- `message.reactions[k] = Math.max(0, message.reactions[k] - 1)`;
truncated `Nat` subtraction is exactly `max 0 (x - 1)` on non-negative counters. -/
def decReaction (r : Reactions) (k : RKind) : Reactions :=
  r.set k (r.get k - 1)

/-- `message.reactions[k] = (message.reactions[k] || 0) + 1`. -/
def incReaction (r : Reactions) (k : RKind) : Reactions :=
  r.set k (r.get k + 1)

/-- The all-zero tally a message starts with
(`{ heart: 0, thumbsup: 0, fire: 0, laugh: 0 }`). -/
def zeroReactions : Reactions := ⟨0, 0, 0, 0⟩

/-- The part of a stored message record the core operates on.  `fromTable`
is the origin table id (`"ADMIN"` for administrative broadcasts),
`timestamp` the creation instant in milliseconds, `reacted` the set of
`` `${tableNumber}_${reaction}` `` keys of `message.reactedTables` (the key
string determines the (table, kind) pair uniquely because no kind name
contains an underscore). -/
structure Message where
  fromTable : String
  timestamp : Int
  reactions : Reactions
  reacted : List (String × RKind)
deriving DecidableEq, Repr

/-- A freshly sent message: the Deno `send-message` handler stores no
`reactions`/`reactedTables` fields, and the `add-reaction` handler
initialises them to zero / empty on first use. -/
def mkMessage (ft : String) (ts : Int) : Message :=
  { fromTable := ft, timestamp := ts, reactions := zeroReactions, reacted := [] }

/-- One iteration of the removal loop of the Deno `add-reaction` handler:
for kind `kt`, if table `t` holds the `kt` marker, record it as the
previous reaction, decrement the `kt` counter (floored at 0) and delete
the marker. -/
def removeStep (t : String) (acc : Message × Option RKind) (kt : RKind) :
    Message × Option RKind :=
  if (t, kt) ∈ acc.1.reacted then
    ({ acc.1 with
        reactions := decReaction acc.1.reactions kt,
        reacted := acc.1.reacted.filter (fun p => p ≠ (t, kt)) }, some kt)
  else acc

/-- The full removal loop over `allReactionTypes` (in source order). -/
def removePrevious (m : Message) (t : String) : Message × Option RKind :=
  kindOrder.foldl (removeStep t) (m, none)

/-- The Deno `add-reaction` handler (exclusive toggle): first remove any
existing reaction of table `t` on this message, then, unless the removed
reaction was `k` itself (toggle-off), add the new reaction `k`. -/
def toggleReaction (m : Message) (t : String) (k : RKind) : Message :=
  let step := removePrevious m t
  if step.2 ≠ some k then
    { step.1 with
        reactions := incReaction step.1.reactions k,
        reacted := step.1.reacted ++ [(t, k)] }
  else step.1

/-- The Express backend `add-reaction` handler (per-kind toggle): only the
`` `${tableNumber}_${reaction}` `` key itself is consulted; markers of
other kinds held by the same table are left alone. -/
def expressAddReaction (m : Message) (t : String) (k : RKind) : Message :=
  if (t, k) ∈ m.reacted then
    { m with
        reactions := decReaction m.reactions k,
        reacted := m.reacted.filter (fun p => p ≠ (t, k)) }
  else
    { m with
        reactions := incReaction m.reactions k,
        reacted := m.reacted ++ [(t, k)] }

/-- A sequence of `add-reaction` calls applied to one message. -/
def applyToggles (m : Message) (ops : List (String × RKind)) : Message :=
  ops.foldl (fun acc p => toggleReaction acc p.1 p.2) m

/-- The reaction markers held by table `t` on message `m`. -/
def perTable (m : Message) (t : String) : List (String × RKind) :=
  m.reacted.filter (fun p => p.1 = t)

/-- The reaction markers of kind `k` on message `m`. -/
def kindMarkers (m : Message) (k : RKind) : List (String × RKind) :=
  m.reacted.filter (fun p => p.2 = k)

/-- The tables currently holding the kind-`k` marker on message `m`. -/
def kindTables (m : Message) (k : RKind) : List String :=
  (kindMarkers m k).map Prod.fst

/-- Well-formedness of a message's reaction state: each table holds at
most one marker, and every counter equals the number of markers of its
kind. -/
def ReactInv (m : Message) : Prop :=
  (∀ t, (perTable m t).length ≤ 1) ∧
  (∀ k, m.reactions.get k = (kindMarkers m k).length)

example :
    (toggleReaction (mkMessage "A1" 0) "C3" .heart).reactions = ⟨1, 0, 0, 0⟩ := by
  decide

example :
    (applyToggles (mkMessage "A1" 0)
      [("C3", .heart), ("C3", .fire), ("C3", .fire)]).reactions = zeroReactions := by
  decide

example :
    (applyToggles (mkMessage "A1" 0) [("C3", .heart), ("C3", .fire)]).reacted
      = [("C3", RKind.fire)] := by
  decide

/-! ## Characterisation of the Deno exclusive toggle -/

/-- Net effect of removing table `t`'s marker of kind `k`. -/
def removeOne (m : Message) (t : String) (k : RKind) : Message :=
  { m with
      reactions := decReaction m.reactions k,
      reacted := m.reacted.filter (fun p => p ≠ (t, k)) }

/-- Net effect of adding the marker `(t, k)`. -/
def addOne (m : Message) (t : String) (k : RKind) : Message :=
  { m with
      reactions := incReaction m.reactions k,
      reacted := m.reacted ++ [(t, k)] }

theorem mem_perTable {m : Message} {t t' : String} {k : RKind} :
    (t', k) ∈ perTable m t ↔ (t', k) ∈ m.reacted ∧ t' = t := by
  simp [perTable, List.mem_filter]

theorem not_mem_of_perTable_nil {m : Message} {t : String}
    (h : perTable m t = []) (k : RKind) : (t, k) ∉ m.reacted := by
  intro hmem
  have : (t, k) ∈ perTable m t := mem_perTable.mpr ⟨hmem, rfl⟩
  rw [h] at this
  simp at this

theorem mem_iff_of_perTable_single {m : Message} {t : String} {k0 : RKind}
    (h : perTable m t = [(t, k0)]) (k : RKind) :
    (t, k) ∈ m.reacted ↔ k = k0 := by
  constructor
  · intro hmem
    have : (t, k) ∈ perTable m t := mem_perTable.mpr ⟨hmem, rfl⟩
    rw [h] at this
    simpa using this
  · rintro rfl
    have : (t, k) ∈ perTable m t := by
      rw [h]
      simp
    exact (mem_perTable.mp this).1

theorem perTable_nil_or_single (m : Message) (t : String)
    (h : (perTable m t).length ≤ 1) :
    perTable m t = [] ∨ ∃ k, perTable m t = [(t, k)] := by
  rcases hl : perTable m t with _ | ⟨hd, tl⟩
  · exact Or.inl rfl
  · rcases tl with _ | ⟨hd2, tl2⟩
    · right
      have hhd : hd ∈ perTable m t := by
        rw [hl]
        simp
      have h1 : hd.1 = t := by
        simp [perTable, List.mem_filter] at hhd
        exact hhd.2
      exact ⟨hd.2, by rw [← h1]⟩
    · rw [hl] at h
      simp at h

theorem countP_eq_one_of_perTable_single {m : Message} {t : String} {k0 : RKind}
    (h : perTable m t = [(t, k0)]) :
    m.reacted.countP (fun p => p = (t, k0)) = 1 := by
  have h2 : (perTable m t).countP (fun p => p = (t, k0)) = 1 := by
    rw [h]
    simp
  rw [← h2]
  unfold perTable
  rw [List.countP_filter]
  apply List.countP_congr
  intro p _
  simp
  intro hp
  subst hp
  rfl

theorem length_filter_ne {α : Type} [DecidableEq α] (l : List α) (x : α) :
    (l.filter (fun a => a ≠ x)).length = l.length - l.countP (fun a => a = x) := by
  induction l with
  | nil => simp
  | cons a l ih =>
    have hc : l.countP (fun a => a = x) ≤ l.length := List.countP_le_length _
    by_cases h : a = x
    · subst h
      simp [List.filter_cons, List.countP_cons] at ih ⊢
      omega
    · simp [List.filter_cons, h, List.countP_cons] at ih ⊢
      omega

theorem removeStep_of_mem {m : Message} {t : String} {kt : RKind}
    (h : (t, kt) ∈ m.reacted) (prev : Option RKind) :
    removeStep t (m, prev) kt = (removeOne m t kt, some kt) := by
  simp [removeStep, removeOne, h]

theorem removeStep_of_not_mem {m : Message} {t : String} {kt : RKind}
    (h : (t, kt) ∉ m.reacted) (prev : Option RKind) :
    removeStep t (m, prev) kt = (m, prev) := by
  simp [removeStep, h]

theorem not_mem_removeOne {m : Message} {t : String} {k0 : RKind}
    (hk : ∀ k, (t, k) ∈ m.reacted ↔ k = k0) (k : RKind) :
    (t, k) ∉ (removeOne m t k0).reacted := by
  intro hmem
  rcases List.mem_filter.mp hmem with ⟨hmem', hne⟩
  have hk0 : k = k0 := (hk k).mp hmem'
  subst hk0
  simp at hne

theorem removePrevious_of_nil {m : Message} {t : String}
    (h : perTable m t = []) : removePrevious m t = (m, none) := by
  have hk := not_mem_of_perTable_nil h
  simp [removePrevious, kindOrder, removeStep_of_not_mem (hk RKind.heart),
    removeStep_of_not_mem (hk RKind.thumbsup),
    removeStep_of_not_mem (hk RKind.fire),
    removeStep_of_not_mem (hk RKind.laugh)]

theorem removePrevious_of_single {m : Message} {t : String} {k0 : RKind}
    (h : perTable m t = [(t, k0)]) :
    removePrevious m t = (removeOne m t k0, some k0) := by
  have hk := mem_iff_of_perTable_single h
  have hmem : (t, k0) ∈ m.reacted := (hk k0).mpr rfl
  have hnm : ∀ k, k ≠ k0 → (t, k) ∉ m.reacted := by
    intro k hke hmem'
    exact hke ((hk k).mp hmem')
  have hrm := not_mem_removeOne hk
  cases k0 with
  | heart =>
    simp [removePrevious, kindOrder, removeStep_of_mem hmem,
      removeStep_of_not_mem (hrm RKind.thumbsup),
      removeStep_of_not_mem (hrm RKind.fire),
      removeStep_of_not_mem (hrm RKind.laugh)]
  | thumbsup =>
    simp [removePrevious, kindOrder,
      removeStep_of_not_mem (hnm RKind.heart (by simp)),
      removeStep_of_mem hmem,
      removeStep_of_not_mem (hrm RKind.fire),
      removeStep_of_not_mem (hrm RKind.laugh)]
  | fire =>
    simp [removePrevious, kindOrder,
      removeStep_of_not_mem (hnm RKind.heart (by simp)),
      removeStep_of_not_mem (hnm RKind.thumbsup (by simp)),
      removeStep_of_mem hmem,
      removeStep_of_not_mem (hrm RKind.laugh)]
  | laugh =>
    simp [removePrevious, kindOrder,
      removeStep_of_not_mem (hnm RKind.heart (by simp)),
      removeStep_of_not_mem (hnm RKind.thumbsup (by simp)),
      removeStep_of_not_mem (hnm RKind.fire (by simp)),
      removeStep_of_mem hmem]

theorem toggle_of_nil {m : Message} {t : String} (k : RKind)
    (h : perTable m t = []) : toggleReaction m t k = addOne m t k := by
  simp [toggleReaction, removePrevious_of_nil h, addOne]

theorem toggle_of_same {m : Message} {t : String} {k : RKind}
    (h : perTable m t = [(t, k)]) : toggleReaction m t k = removeOne m t k := by
  simp [toggleReaction, removePrevious_of_single h]

theorem toggle_of_other {m : Message} {t : String} {k0 k : RKind}
    (h : perTable m t = [(t, k0)]) (hne : k0 ≠ k) :
    toggleReaction m t k = addOne (removeOne m t k0) t k := by
  simp [toggleReaction, removePrevious_of_single h, hne, addOne]

/-! ## Preservation of the reaction-ledger invariant -/

theorem get_incReaction (r : Reactions) (k k' : RKind) :
    (incReaction r k).get k' = if k = k' then r.get k' + 1 else r.get k' := by
  cases k <;> cases k' <;> simp [incReaction, Reactions.get, Reactions.set]

theorem get_decReaction (r : Reactions) (k k' : RKind) :
    (decReaction r k).get k' = if k = k' then r.get k' - 1 else r.get k' := by
  cases k <;> cases k' <;> simp [decReaction, Reactions.get, Reactions.set]

theorem perTable_addOne (m : Message) (t : String) (k : RKind) (t' : String) :
    perTable (addOne m t k) t' = perTable m t' ++ if t = t' then [(t, k)] else [] := by
  by_cases h : t = t' <;>
    simp [perTable, addOne, List.filter_append, h]

theorem kindMarkers_addOne (m : Message) (t : String) (k k' : RKind) :
    kindMarkers (addOne m t k) k' = kindMarkers m k' ++ if k = k' then [(t, k)] else [] := by
  by_cases h : k = k' <;>
    simp [kindMarkers, addOne, List.filter_append, h]

theorem perTable_removeOne (m : Message) (t : String) (k0 : RKind) (t' : String) :
    perTable (removeOne m t k0) t' = (perTable m t').filter (fun p => p ≠ (t, k0)) := by
  simp only [perTable, removeOne]
  exact List.filter_comm _ _ _

theorem kindMarkers_removeOne (m : Message) (t : String) (k0 : RKind) (k' : RKind) :
    kindMarkers (removeOne m t k0) k' = (kindMarkers m k').filter (fun p => p ≠ (t, k0)) := by
  simp only [kindMarkers, removeOne]
  exact List.filter_comm _ _ _

theorem perTable_removeOne_self {m : Message} {t : String} {k0 : RKind}
    (h : perTable m t = [(t, k0)]) : perTable (removeOne m t k0) t = [] := by
  rw [perTable_removeOne, h]
  simp

theorem perTable_removeOne_ne (m : Message) {t t' : String} (k0 : RKind)
    (hne : t' ≠ t) : perTable (removeOne m t k0) t' = perTable m t' := by
  rw [perTable_removeOne]
  apply List.filter_eq_self.mpr
  intro a ha
  have h1 : a.1 = t' := by
    simp [perTable, List.mem_filter] at ha
    exact ha.2
  simp only [ne_eq, decide_not, Bool.not_eq_eq_eq_not, Bool.not_true, decide_eq_false_iff_not]
  intro hat
  subst hat
  simp at h1
  exact hne h1.symm

theorem kindMarkers_removeOne_ne (m : Message) (t : String) {k0 k' : RKind}
    (hne : k' ≠ k0) : kindMarkers (removeOne m t k0) k' = kindMarkers m k' := by
  rw [kindMarkers_removeOne]
  apply List.filter_eq_self.mpr
  intro a ha
  have h2 : a.2 = k' := by
    simp [kindMarkers, List.mem_filter] at ha
    exact ha.2
  simp only [ne_eq, decide_not, Bool.not_eq_eq_eq_not, Bool.not_true, decide_eq_false_iff_not]
  intro hak
  subst hak
  simp at h2
  exact hne h2.symm

theorem kindMarkers_removeOne_self {m : Message} {t : String} {k0 : RKind}
    (h : perTable m t = [(t, k0)]) :
    (kindMarkers (removeOne m t k0) k0).length = (kindMarkers m k0).length - 1 := by
  rw [kindMarkers_removeOne, length_filter_ne]
  have hcount : (kindMarkers m k0).countP (fun p => p = (t, k0)) = 1 := by
    have hstep : (kindMarkers m k0).countP (fun p => p = (t, k0))
        = m.reacted.countP (fun p => p = (t, k0)) := by
      unfold kindMarkers
      rw [List.countP_filter]
      apply List.countP_congr
      intro p _
      simp
      intro hp
      subst hp
      rfl
    rw [hstep, countP_eq_one_of_perTable_single h]
  rw [hcount]

theorem reactInv_addOne {m : Message} {t : String} (k : RKind)
    (h : ReactInv m) (hpt : perTable m t = []) : ReactInv (addOne m t k) := by
  constructor
  · intro t'
    rw [perTable_addOne]
    by_cases ht : t = t'
    · subst ht
      rw [hpt]
      simp
    · simp [ht]
      exact h.1 t'
  · intro k'
    have hr : (addOne m t k).reactions = incReaction m.reactions k := rfl
    rw [hr, get_incReaction, kindMarkers_addOne]
    by_cases hk : k = k' <;> simp [hk, h.2 k']

theorem reactInv_removeOne {m : Message} {t : String} {k0 : RKind}
    (h : ReactInv m) (hpt : perTable m t = [(t, k0)]) : ReactInv (removeOne m t k0) := by
  constructor
  · intro t'
    by_cases ht : t' = t
    · subst ht
      rw [perTable_removeOne_self hpt]
      simp
    · rw [perTable_removeOne_ne m k0 ht]
      exact h.1 t'
  · intro k'
    have hr : (removeOne m t k0).reactions = decReaction m.reactions k0 := rfl
    rw [hr, get_decReaction]
    by_cases hk : k0 = k'
    · subst hk
      rw [kindMarkers_removeOne_self hpt, h.2 k0]
      simp
    · rw [kindMarkers_removeOne_ne m t (fun he => hk he.symm)]
      simp [hk, h.2 k']

theorem reactInv_toggle {m : Message} (t : String) (k : RKind)
    (h : ReactInv m) : ReactInv (toggleReaction m t k) := by
  rcases perTable_nil_or_single m t (h.1 t) with hpt | ⟨k0, hpt⟩
  · rw [toggle_of_nil k hpt]
    exact reactInv_addOne k h hpt
  · by_cases hk : k0 = k
    · subst hk
      rw [toggle_of_same hpt]
      exact reactInv_removeOne h hpt
    · rw [toggle_of_other hpt hk]
      exact reactInv_addOne k (reactInv_removeOne h hpt) (perTable_removeOne_self hpt)

theorem reactInv_mkMessage (ft : String) (ts : Int) : ReactInv (mkMessage ft ts) := by
  constructor
  · intro t
    simp [perTable, mkMessage]
  · intro k
    cases k <;> simp [kindMarkers, mkMessage, zeroReactions, Reactions.get]

theorem reactInv_applyToggles {m : Message} (h : ReactInv m)
    (ops : List (String × RKind)) : ReactInv (applyToggles m ops) := by
  induction ops generalizing m with
  | nil => exact h
  | cons p ops ih =>
    have hstep : applyToggles m (p :: ops) = applyToggles (toggleReaction m p.1 p.2) ops := rfl
    rw [hstep]
    exact ih (reactInv_toggle p.1 p.2 h)

theorem nodup_kindTables {m : Message}
    (h1 : ∀ t, (perTable m t).length ≤ 1) (k : RKind) : (kindTables m k).Nodup := by
  rw [List.nodup_iff_count_le_one]
  intro a
  have hsub : (kindTables m k).Sublist (m.reacted.map Prod.fst) :=
    (List.filter_sublist m.reacted).map Prod.fst
  have hle := hsub.count_le a
  have heq : (m.reacted.map Prod.fst).count a
      = (perTable m a).length := by
    rw [List.count_eq_countP, List.countP_map, perTable, ← List.countP_eq_length_filter]
    exact List.countP_congr (fun p _ => by simp)
  exact le_trans hle (heq ▸ h1 a)

/-! ## Tally cancellation helpers -/

theorem dec_inc_cancel (r : Reactions) (k : RKind) :
    decReaction (incReaction r k) k = r := by
  cases k <;> simp [incReaction, decReaction, Reactions.get, Reactions.set]

theorem inc_dec_cancel {r : Reactions} {k : RKind} (hge : 1 ≤ r.get k) :
    incReaction (decReaction r k) k = r := by
  cases k <;>
    (simp [Reactions.get] at hge
     simp [incReaction, decReaction, Reactions.get, Reactions.set, Nat.sub_add_cancel hge])

theorem get_pos_of_marker {m : Message} {t : String} {k : RKind}
    (hinv : ReactInv m) (hmem : (t, k) ∈ m.reacted) : 1 ≤ m.reactions.get k := by
  rw [hinv.2 k]
  have : (t, k) ∈ kindMarkers m k := List.mem_filter.mpr ⟨hmem, by simp⟩
  exact List.length_pos.mpr (fun hnil => by simp [hnil] at this)

/-! ## Claim theorems on the reaction ledger -/

/-- C1: starting from a message with an empty reaction state, after any
sequence of `add-reaction` (toggleReaction) calls, each table holds at most
one reaction-kind marker on the message, and each of the four tally
counters equals the number of (distinct) tables currently holding the
marker of that kind. -/
theorem toggle_exclusivity_and_tally (ft : String) (ts : Int)
    (ops : List (String × RKind)) :
    (∀ t, (perTable (applyToggles (mkMessage ft ts) ops) t).length ≤ 1) ∧
    (∀ k, (applyToggles (mkMessage ft ts) ops).reactions.get k
        = (kindTables (applyToggles (mkMessage ft ts) ops) k).length) ∧
    (∀ k, (kindTables (applyToggles (mkMessage ft ts) ops) k).Nodup) := by
  have hinv := reactInv_applyToggles (reactInv_mkMessage ft ts) ops
  refine ⟨hinv.1, ?_, fun k => nodup_kindTables hinv.1 k⟩
  intro k
  rw [hinv.2 k]
  simp [kindTables]

/-- C6 counterexample: toggling the SAME kind twice does not restore the
tally when the table previously held a marker of a DIFFERENT kind: with
table C3 holding a heart marker (tally heart = 1), two consecutive fire
toggles leave the tally all-zero (the heart reaction is lost). -/
theorem toggle_twice_changes_tally_counterexample :
    (toggleReaction (toggleReaction
        (applyToggles (mkMessage "A1" 0) [("C3", RKind.heart)]) "C3" RKind.fire)
        "C3" RKind.fire).reactions
      ≠ (applyToggles (mkMessage "A1" 0) [("C3", RKind.heart)]).reactions := by
  decide

/-- C6 (amended): on any reachable message state in which table `t` holds
either no reaction marker or the marker of kind `k` itself, calling
`toggleReaction (m, t, k)` twice in a row restores the reaction tally to
its pre-state (add then remove, or remove then add, nets to zero). -/
theorem toggle_twice_restores_tally (ft : String) (ts : Int)
    (ops : List (String × RKind)) (t : String) (k : RKind)
    (h : perTable (applyToggles (mkMessage ft ts) ops) t = [] ∨
         perTable (applyToggles (mkMessage ft ts) ops) t = [(t, k)]) :
    (toggleReaction (toggleReaction (applyToggles (mkMessage ft ts) ops) t k)
        t k).reactions
      = (applyToggles (mkMessage ft ts) ops).reactions := by
  have hinv := reactInv_applyToggles (reactInv_mkMessage ft ts) ops
  rcases h with h | h
  · rw [toggle_of_nil k h]
    have hsingle : perTable (addOne (applyToggles (mkMessage ft ts) ops) t k) t
        = [(t, k)] := by
      rw [perTable_addOne, h]
      simp
    rw [toggle_of_same hsingle]
    show decReaction (incReaction _ k) k = _
    exact dec_inc_cancel _ k
  · rw [toggle_of_same h]
    have hnil : perTable (removeOne (applyToggles (mkMessage ft ts) ops) t k) t = [] :=
      perTable_removeOne_self h
    rw [toggle_of_nil k hnil]
    show incReaction (decReaction _ k) k = _
    exact inc_dec_cancel
      (get_pos_of_marker hinv ((mem_iff_of_perTable_single h k).mpr rfl))

/-- Witness for the amended C6 theorem at a concrete input. -/
theorem toggle_twice_restores_tally_witness :
    (perTable (applyToggles (mkMessage "A1" 0) []) "C3" = [] ∨
     perTable (applyToggles (mkMessage "A1" 0) []) "C3" = [("C3", RKind.heart)]) ∧
    (toggleReaction (toggleReaction (applyToggles (mkMessage "A1" 0) []) "C3"
        RKind.heart) "C3" RKind.heart).reactions
      = (applyToggles (mkMessage "A1" 0) []).reactions :=
  ⟨Or.inl (by decide),
   toggle_twice_restores_tally "A1" 0 [] "C3" RKind.heart (Or.inl (by decide))⟩

/-- C8 counterexample: with table C3 holding a heart marker (heart = 1),
reacting fire gives different results in the two backends: the Deno server
removes the heart marker first (tally heart 0, fire 1; marker set
exactly the fire marker), while the Express backend leaves it (tally
heart 1, fire 1; both markers present). -/
theorem express_deno_disagree_counterexample :
    (toggleReaction (applyToggles (mkMessage "A1" 0) [("C3", RKind.heart)])
        "C3" RKind.fire).reactions
      ≠ (expressAddReaction (applyToggles (mkMessage "A1" 0) [("C3", RKind.heart)])
        "C3" RKind.fire).reactions ∧
    (toggleReaction (applyToggles (mkMessage "A1" 0) [("C3", RKind.heart)])
        "C3" RKind.fire).reacted
      ≠ (expressAddReaction (applyToggles (mkMessage "A1" 0) [("C3", RKind.heart)])
        "C3" RKind.fire).reacted := by
  constructor <;> decide

/-- C8 (amended): the Deno and Express add-reaction operations agree (same
resulting tally and same marker set) whenever the acting table holds no
marker of a different kind on the message, i.e. it holds no marker at all
or exactly the marker of the requested kind; when a different-kind marker
is present the Deno server removes it first while the Express backend
does not. -/
theorem express_deno_agree_without_other_marker (m : Message) (t : String) (k : RKind)
    (h : perTable m t = [] ∨ perTable m t = [(t, k)]) :
    toggleReaction m t k = expressAddReaction m t k := by
  rcases h with h | h
  · rw [toggle_of_nil k h]
    have hnm : (t, k) ∉ m.reacted := not_mem_of_perTable_nil h k
    rw [expressAddReaction, if_neg hnm]
    rfl
  · rw [toggle_of_same h]
    have hm : (t, k) ∈ m.reacted := (mem_iff_of_perTable_single h k).mpr rfl
    rw [expressAddReaction, if_pos hm]
    rfl

/-- Witness for the amended C8 theorem at a concrete input. -/
theorem express_deno_agree_witness :
    perTable (mkMessage "A1" 0) "C3" = [] ∧
    toggleReaction (mkMessage "A1" 0) "C3" RKind.heart
      = expressAddReaction (mkMessage "A1" 0) "C3" RKind.heart :=
  ⟨by decide,
   express_deno_agree_without_other_marker (mkMessage "A1" 0) "C3" RKind.heart
     (Or.inl (by decide))⟩

/-! ## Scoring aggregator (`admin/table-stats` handler) -/

/-- Points one message contributes to its origin table under the scoring
system of the `admin/table-stats` handler: 0.5 per message, plus 2 per
heart, 1.5 per fire, 1 per thumbsup, 0.5 per laugh in its current tally. -/
def msgPoints (m : Message) : ℚ :=
  (1 / 2 : ℚ) + (m.reactions.heart : ℚ) * 2 + (m.reactions.fire : ℚ) * (3 / 2)
    + (m.reactions.thumbsup : ℚ) * 1 + (m.reactions.laugh : ℚ) * (1 / 2)

/-- `stats[t] = (stats[t] || 0) + p` on a JS object modelled as an
insertion-ordered association list. -/
def bump (acc : List (String × ℚ)) (t : String) (p : ℚ) : List (String × ℚ) :=
  match acc with
  | [] => [(t, p)]
  | (u, q) :: rest => if u = t then (u, q + p) :: rest else (u, q) :: bump rest t p

/-- One loop iteration of the stats accumulation: broadcasts
(`msg.fromTable` falsy or equal to "ADMIN") are skipped. -/
def statsStep (acc : List (String × ℚ)) (m : Message) : List (String × ℚ) :=
  if m.fromTable ≠ "" ∧ m.fromTable ≠ "ADMIN" then
    bump acc m.fromTable (msgPoints m)
  else acc

/-- The `stats` object after the message loop of `admin/table-stats`. -/
def tableStatsRaw (msgs : List Message) : List (String × ℚ) :=
  msgs.foldl statsStep []

/-- `Math.round(x * 10) / 10` (round half towards positive infinity). -/
def jsRound1 (q : ℚ) : ℚ :=
  ((⌊q * 10 + 1 / 2⌋ : ℚ)) / 10

/-- The leaderboard returned by `admin/table-stats`: round each total to 1
decimal, sort by points descending (stable sort, as JS `Array.sort`), and
keep the top 10. -/
def leaderboard (msgs : List Message) : List (String × ℚ) :=
  (((tableStatsRaw msgs).map (fun e => (e.1, jsRound1 e.2))).mergeSort
    (fun a b => b.2 ≤ a.2)).take 10

/-- The specification-side score of table `t`: the sum of `msgPoints` over
all stored messages whose origin table is `t`. -/
def rawScore (t : String) (msgs : List Message) : ℚ :=
  ((msgs.filter (fun m => m.fromTable = t)).map msgPoints).sum

/-- First-match lookup in the stats object, defaulting to 0. -/
def lookupQ (acc : List (String × ℚ)) (t : String) : ℚ :=
  match acc with
  | [] => 0
  | (u, q) :: rest => if u = t then q else lookupQ rest t

theorem bump_lookup_self (acc : List (String × ℚ)) (t : String) (p : ℚ) :
    lookupQ (bump acc t p) t = lookupQ acc t + p := by
  induction acc with
  | nil => simp [bump, lookupQ]
  | cons e rest ih =>
    obtain ⟨u, q⟩ := e
    by_cases h : u = t <;> simp [bump, lookupQ, h, ih]

theorem bump_lookup_ne (acc : List (String × ℚ)) {t t' : String} (p : ℚ)
    (h : t' ≠ t) : lookupQ (bump acc t p) t' = lookupQ acc t' := by
  have hne : ¬ t = t' := fun he => h he.symm
  induction acc with
  | nil => simp [bump, lookupQ, hne]
  | cons e rest ih =>
    obtain ⟨u, q⟩ := e
    by_cases hu : u = t
    · subst hu
      simp [bump, lookupQ, hne]
    · simp [bump, lookupQ, hu, ih]

theorem keys_bump (acc : List (String × ℚ)) (t : String) (p : ℚ) :
    (bump acc t p).map Prod.fst
      = if t ∈ acc.map Prod.fst then acc.map Prod.fst
        else acc.map Prod.fst ++ [t] := by
  induction acc with
  | nil => simp [bump]
  | cons e rest ih =>
    obtain ⟨v, q⟩ := e
    by_cases hv : v = t
    · subst hv
      simp [bump]
    · simp only [bump, if_neg hv, List.map_cons, List.mem_cons, ih]
      by_cases hmem : t ∈ rest.map Prod.fst
      · simp [hmem]
      · have hv' : ¬ t = v := fun he => hv he.symm
        simp [hmem, hv']

theorem mem_keys_bump {acc : List (String × ℚ)} {t u : String} {p : ℚ}
    (h : u ∈ (bump acc t p).map Prod.fst) :
    u ∈ acc.map Prod.fst ∨ u = t := by
  rw [keys_bump] at h
  by_cases hmem : t ∈ acc.map Prod.fst
  · rw [if_pos hmem] at h
    exact Or.inl h
  · rw [if_neg hmem] at h
    rcases List.mem_append.mp h with h' | h'
    · exact Or.inl h'
    · exact Or.inr (by simpa using h')

theorem keys_bump_nodup {acc : List (String × ℚ)} {t : String} {p : ℚ}
    (h : (acc.map Prod.fst).Nodup) : ((bump acc t p).map Prod.fst).Nodup := by
  rw [keys_bump]
  by_cases hmem : t ∈ acc.map Prod.fst
  · rw [if_pos hmem]
    exact h
  · rw [if_neg hmem]
    simp [List.nodup_append, h, hmem]

theorem lookupQ_of_mem {acc : List (String × ℚ)} {t : String} {p : ℚ}
    (hnd : (acc.map Prod.fst).Nodup) (hmem : (t, p) ∈ acc) :
    lookupQ acc t = p := by
  induction acc with
  | nil => simp at hmem
  | cons e rest ih =>
    obtain ⟨v, q⟩ := e
    simp only [List.map_cons, List.nodup_cons] at hnd
    rcases List.mem_cons.mp hmem with h | h
    · injection h with h1 h2
      subst h1
      subst h2
      simp [lookupQ]
    · have hvt : ¬ v = t := by
        intro he
        subst he
        exact hnd.1 (by simpa using ⟨p, h⟩)
      simp only [lookupQ, if_neg hvt]
      exact ih hnd.2 h

theorem rawScore_nil (t : String) : rawScore t [] = 0 := by
  simp [rawScore]

theorem rawScore_cons (t : String) (m : Message) (msgs : List Message) :
    rawScore t (m :: msgs)
      = (if m.fromTable = t then msgPoints m else 0) + rawScore t msgs := by
  by_cases h : m.fromTable = t <;> simp [rawScore, List.filter_cons, h]

theorem rawScore_append (t : String) (l1 l2 : List Message) :
    rawScore t (l1 ++ l2) = rawScore t l1 + rawScore t l2 := by
  simp [rawScore, List.filter_append]

theorem statsFold_lookup {u : String} (hu1 : u ≠ "") (hu2 : u ≠ "ADMIN")
    (msgs : List Message) :
    ∀ acc : List (String × ℚ),
      lookupQ (msgs.foldl statsStep acc) u = lookupQ acc u + rawScore u msgs := by
  induction msgs with
  | nil => intro acc; simp [rawScore]
  | cons m msgs ih =>
    intro acc
    rw [List.foldl_cons, ih, rawScore_cons]
    by_cases hq : m.fromTable ≠ "" ∧ m.fromTable ≠ "ADMIN"
    · rw [statsStep, if_pos hq]
      by_cases hf : m.fromTable = u
      · rw [hf, bump_lookup_self]
        simp
        ring
      · rw [bump_lookup_ne _ _ (fun he => hf he.symm), if_neg hf]
        ring
    · rw [statsStep, if_neg hq]
      have hf : ¬ m.fromTable = u := by
        intro he
        rw [he] at hq
        exact hq ⟨hu1, hu2⟩
      rw [if_neg hf]
      ring

theorem statsFold_keys {u : String} (msgs : List Message) :
    ∀ acc : List (String × ℚ),
      u ∈ (msgs.foldl statsStep acc).map Prod.fst →
      u ∈ acc.map Prod.fst ∨ (u ≠ "" ∧ u ≠ "ADMIN") := by
  induction msgs with
  | nil => intro acc h; exact Or.inl h
  | cons m msgs ih =>
    intro acc h
    rcases ih (statsStep acc m) (by simpa using h) with h' | h'
    · by_cases hq : m.fromTable ≠ "" ∧ m.fromTable ≠ "ADMIN"
      · rw [statsStep, if_pos hq] at h'
        rcases mem_keys_bump h' with h'' | h''
        · exact Or.inl h''
        · exact Or.inr (h'' ▸ hq)
      · rw [statsStep, if_neg hq] at h'
        exact Or.inl h'
    · exact Or.inr h'

theorem statsFold_keys_nodup (msgs : List Message) :
    ∀ acc : List (String × ℚ), (acc.map Prod.fst).Nodup →
      ((msgs.foldl statsStep acc).map Prod.fst).Nodup := by
  induction msgs with
  | nil => intro acc h; exact h
  | cons m msgs ih =>
    intro acc h
    refine ih (statsStep acc m) ?_
    by_cases hq : m.fromTable ≠ "" ∧ m.fromTable ≠ "ADMIN"
    · rw [statsStep, if_pos hq]
      exact keys_bump_nodup h
    · rw [statsStep, if_neg hq]
      exact h

theorem tableStatsRaw_mem {msgs : List Message} {e : String × ℚ}
    (h : e ∈ tableStatsRaw msgs) :
    e.1 ≠ "" ∧ e.1 ≠ "ADMIN" ∧ e.2 = rawScore e.1 msgs := by
  obtain ⟨t, p⟩ := e
  have hkey : t ∈ (tableStatsRaw msgs).map Prod.fst :=
    List.mem_map.mpr ⟨(t, p), h, rfl⟩
  rcases statsFold_keys msgs [] (by simpa [tableStatsRaw] using hkey) with h0 | hqual
  · simp at h0
  refine ⟨hqual.1, hqual.2, ?_⟩
  have hnd : ((tableStatsRaw msgs).map Prod.fst).Nodup :=
    statsFold_keys_nodup msgs [] (by simp)
  have hval : lookupQ (tableStatsRaw msgs) t = p := lookupQ_of_mem hnd h
  have hl := statsFold_lookup hqual.1 hqual.2 msgs []
  rw [tableStatsRaw] at hval
  rw [hl] at hval
  simpa [lookupQ] using hval.symm

theorem leaderboard_mem {msgs : List Message} {e : String × ℚ}
    (h : e ∈ leaderboard msgs) :
    e.1 ≠ "" ∧ e.1 ≠ "ADMIN" ∧ e.2 = jsRound1 (rawScore e.1 msgs) := by
  have h1 : e ∈ (tableStatsRaw msgs).map (fun e => (e.1, jsRound1 e.2)) := by
    have h2 := List.mem_of_mem_take h
    exact (List.mergeSort_perm _ _).mem_iff.mp h2
  obtain ⟨e0, he0, heq⟩ := List.mem_map.mp h1
  have hm := tableStatsRaw_mem he0
  rw [← heq]
  exact ⟨hm.1, hm.2.1, by rw [hm.2.2]⟩

theorem leaderboard_sorted (msgs : List Message) :
    (leaderboard msgs).Sorted (fun a b => b.2 ≤ a.2) := by
  have htrans : ∀ a b c : String × ℚ,
      decide (b.2 ≤ a.2) = true → decide (c.2 ≤ b.2) = true →
      decide (c.2 ≤ a.2) = true := by
    intro a b c h1 h2
    simp at h1 h2 ⊢
    exact le_trans h2 h1
  have htotal : ∀ a b : String × ℚ,
      (decide (b.2 ≤ a.2) || decide (a.2 ≤ b.2)) = true := by
    intro a b
    simpa using le_total b.2 a.2
  have hp := @List.sorted_mergeSort (String × ℚ)
    (fun a b => decide (b.2 ≤ a.2)) htrans htotal
    ((tableStatsRaw msgs).map (fun e => (e.1, jsRound1 e.2)))
  have hp2 : ((tableStatsRaw msgs).map (fun e => (e.1, jsRound1 e.2))
      |>.mergeSort (fun a b => decide (b.2 ≤ a.2))).Pairwise
        (fun a b : String × ℚ => b.2 ≤ a.2) := by
    refine hp.imp ?_
    intro a b hab
    simpa using hab
  exact List.Pairwise.sublist (List.take_sublist _ _) hp2

theorem keys_bump_mono {acc : List (String × ℚ)} {t u : String} {p : ℚ}
    (h : u ∈ acc.map Prod.fst) : u ∈ (bump acc t p).map Prod.fst := by
  rw [keys_bump]
  by_cases hmem : t ∈ acc.map Prod.fst <;> simp [hmem, h]

theorem keys_bump_self (acc : List (String × ℚ)) (t : String) (p : ℚ) :
    t ∈ (bump acc t p).map Prod.fst := by
  rw [keys_bump]
  by_cases hmem : t ∈ acc.map Prod.fst <;> simp [hmem]

theorem statsFold_keys_mono (msgs : List Message) :
    ∀ (acc : List (String × ℚ)) (u : String),
      u ∈ acc.map Prod.fst → u ∈ (msgs.foldl statsStep acc).map Prod.fst := by
  induction msgs with
  | nil => intro acc u h; exact h
  | cons m msgs ih =>
    intro acc u h
    refine ih (statsStep acc m) u ?_
    by_cases hq : m.fromTable ≠ "" ∧ m.fromTable ≠ "ADMIN"
    · rw [statsStep, if_pos hq]
      exact keys_bump_mono h
    · rw [statsStep, if_neg hq]
      exact h

theorem statsFold_keys_complete (msgs : List Message) :
    ∀ (acc : List (String × ℚ)) (t : String), t ≠ "" → t ≠ "ADMIN" →
      (∃ m ∈ msgs, m.fromTable = t) →
      t ∈ (msgs.foldl statsStep acc).map Prod.fst := by
  induction msgs with
  | nil =>
    intro acc t _ _ hex
    simp at hex
  | cons m msgs ih =>
    intro acc t ht1 ht2 hex
    obtain ⟨m', hm', hf⟩ := hex
    rcases List.mem_cons.mp hm' with he | hm'
    · subst he
      have hq : m'.fromTable ≠ "" ∧ m'.fromTable ≠ "ADMIN" := by
        rw [hf]
        exact ⟨ht1, ht2⟩
      rw [List.foldl_cons, statsStep, if_pos hq]
      refine statsFold_keys_mono msgs _ t ?_
      rw [hf]
      exact keys_bump_self acc t _
    · exact ih (statsStep acc m) t ht1 ht2 ⟨m', hm', hf⟩

/-- C2: the `admin/table-stats` leaderboard accumulates, for every table
with a message whose origin is non-empty and non-administrative, 0.5 per
message sent plus 2 per heart, 1.5 per fire, 1 per thumbsup and 0.5 per
laugh read from each message's current tally; every returned entry is
that sum rounded to one decimal, the list is sorted descending by points
and truncated to the top 10. -/
theorem table_stats_leaderboard_correct (msgs : List Message) :
    (∀ e ∈ leaderboard msgs,
      e.1 ≠ "ADMIN" ∧ e.1 ≠ "" ∧ e.2 = jsRound1 (rawScore e.1 msgs)) ∧
    (∀ t, t ≠ "" → t ≠ "ADMIN" → (∃ m ∈ msgs, m.fromTable = t) →
      t ∈ (tableStatsRaw msgs).map Prod.fst) ∧
    (leaderboard msgs).Sorted (fun a b => b.2 ≤ a.2) ∧
    (leaderboard msgs).length ≤ 10 := by
  refine ⟨fun e he => ?_, ?_, leaderboard_sorted msgs, ?_⟩
  · have hm := leaderboard_mem he
    exact ⟨hm.2.1, hm.1, hm.2.2⟩
  · intro t ht1 ht2 hex
    exact statsFold_keys_complete msgs [] t ht1 ht2 hex
  · rw [leaderboard]
    exact List.length_take_le _ _

/-- Witness for the C2 theorem at a concrete input. -/
theorem table_stats_leaderboard_witness :
    ("A1", jsRound1 (msgPoints (mkMessage "A1" 0))).1 ≠ "ADMIN" ∧
    ("A1", jsRound1 (msgPoints (mkMessage "A1" 0))).1 ≠ "" ∧
    ("A1", jsRound1 (msgPoints (mkMessage "A1" 0))).2
      = jsRound1 (rawScore ("A1", jsRound1 (msgPoints (mkMessage "A1" 0))).1
          [mkMessage "A1" 0]) :=
  (table_stats_leaderboard_correct [mkMessage "A1" 0]).1 _
    (by simp [leaderboard, tableStatsRaw, statsStep, bump, List.mergeSort, mkMessage])

/-! ## Score monotonicity -/

/-- The leaderboard weight of one reaction of each kind. -/
def rweight : RKind → ℚ
  | .heart => 2
  | .fire => 3 / 2
  | .thumbsup => 1
  | .laugh => 1 / 2

theorem msgPoints_nonneg (m : Message) : 0 ≤ msgPoints m := by
  unfold msgPoints
  positivity

theorem rweight_nonneg (k : RKind) : 0 ≤ rweight k := by
  cases k <;> norm_num [rweight]

theorem msgPoints_addOne (m : Message) (t : String) (k : RKind) :
    msgPoints (addOne m t k) = msgPoints m + rweight k := by
  cases k <;>
    simp [msgPoints, addOne, incReaction, Reactions.get, Reactions.set, rweight] <;>
    ring

theorem jsRound1_mono {q r : ℚ} (h : q ≤ r) : jsRound1 q ≤ jsRound1 r := by
  unfold jsRound1
  have h1 : (⌊q * 10 + 1 / 2⌋ : ℤ) ≤ ⌊r * 10 + 1 / 2⌋ :=
    Int.floor_le_floor (by linarith)
  have h2 : ((⌊q * 10 + 1 / 2⌋ : ℤ) : ℚ) ≤ ((⌊r * 10 + 1 / 2⌋ : ℤ) : ℚ) := by
    exact_mod_cast h1
  linarith

/-- C7 counterexample: a single `toggleReaction` call on a message sent by
table A1 (table B2 toggling its heart reaction OFF) strictly decreases
A1's computed leaderboard score (from 2.5 to 0.5). -/
theorem score_decrease_counterexample :
    jsRound1 (rawScore "A1"
        [toggleReaction (toggleReaction (mkMessage "A1" 0) "B2" RKind.heart)
          "B2" RKind.heart])
      < jsRound1 (rawScore "A1" [toggleReaction (mkMessage "A1" 0) "B2" RKind.heart]) := by
  have h1 : toggleReaction (mkMessage "A1" 0) "B2" RKind.heart
      = ⟨"A1", 0, ⟨1, 0, 0, 0⟩, [("B2", RKind.heart)]⟩ := by decide
  have h2 : toggleReaction (toggleReaction (mkMessage "A1" 0) "B2" RKind.heart)
      "B2" RKind.heart = ⟨"A1", 0, ⟨0, 0, 0, 0⟩, []⟩ := by decide
  rw [h2, h1]
  norm_num [rawScore, msgPoints, jsRound1]

/-- C7 (amended): appending one more message from table `t` never
decreases `t`'s computed leaderboard score, and a `toggleReaction` call
that ADDS a reaction (the acting table holds no prior marker on the
message) never decreases the score of the message's origin table.  (A
toggle that removes or switches an existing reaction can decrease it.) -/
theorem score_monotone (msgs : List Message) (madd : Message) (t : String)
    (l1 l2 : List Message) (m : Message) (t' : String) (k : RKind)
    (hadd : madd.fromTable = t) (h0 : perTable m t' = []) :
    jsRound1 (rawScore t msgs) ≤ jsRound1 (rawScore t (msgs ++ [madd])) ∧
    jsRound1 (rawScore t (l1 ++ m :: l2))
      ≤ jsRound1 (rawScore t (l1 ++ toggleReaction m t' k :: l2)) := by
  constructor
  · apply jsRound1_mono
    rw [rawScore_append, rawScore_cons, rawScore_nil, hadd]
    have := msgPoints_nonneg madd
    simp
    linarith
  · apply jsRound1_mono
    rw [toggle_of_nil k h0, rawScore_append, rawScore_append,
      rawScore_cons, rawScore_cons]
    have hw : msgPoints (addOne m t' k) = msgPoints m + rweight k :=
      msgPoints_addOne m t' k
    have hwn : 0 ≤ rweight k := rweight_nonneg k
    have hfrom : (addOne m t' k).fromTable = m.fromTable := rfl
    by_cases hf : m.fromTable = t
    · simp only [hfrom, if_pos hf, hw]
      linarith
    · simp only [hfrom, if_neg hf]
      exact le_rfl

/-- Witness for the amended C7 theorem at a concrete input. -/
theorem score_monotone_witness :
    jsRound1 (rawScore "A1" []) ≤ jsRound1 (rawScore "A1" ([] ++ [mkMessage "A1" 0])) ∧
    jsRound1 (rawScore "A1" ([] ++ mkMessage "A1" 0 :: []))
      ≤ jsRound1 (rawScore "A1"
          ([] ++ toggleReaction (mkMessage "A1" 0) "B2" RKind.heart :: [])) :=
  ⟨(score_monotone [] (mkMessage "A1" 0) "A1" [] [] (mkMessage "A1" 0) "B2"
      RKind.heart rfl (by decide)).1,
   (score_monotone [] (mkMessage "A1" 0) "A1" [] [] (mkMessage "A1" 0) "B2"
      RKind.heart rfl (by decide)).2⟩

/-! ## Challenge engine -/

/-- A challenge record as stored by `admin/create-challenge`.  `ctype`
embeds the `type` field (one of `most_messages`, `most_reactions`,
`speed`); `startedAt`/`endsAt` are the window instants in milliseconds. -/
structure Challenge where
  id : String
  title : String
  description : String
  ctype : String
  startedAt : Int
  endsAt : Int
  active : Bool
  badgeName : String
  badgeEmoji : String
  winner : Option String
  participants : List String
  results : List (String × Int)
deriving DecidableEq, Repr

/-- A badge-award record appended to `table:{id}:badges`. -/
structure BadgeRec where
  challengeId : String
  name : String
  emoji : String
  awardedAt : Int
  challengeTitle : String
deriving DecidableEq, Repr

/-- `kv.set` on an association-list store: overwrite the first binding of
the key or append a new one. -/
def kvSet {β : Type} (l : List (String × β)) (k : String) (v : β) :
    List (String × β) :=
  match l with
  | [] => [(k, v)]
  | (k', v') :: rest => if k' = k then (k, v) :: rest else (k', v') :: kvSet rest k v

/-- The window-and-origin filter of `determineWinner` (timestamps within
`[startedAt, endsAt]`, origin not the administrative sender). -/
def challengeMessages (msgs : List Message) (c : Challenge) : List Message :=
  msgs.filter (fun msg =>
    c.startedAt ≤ msg.timestamp ∧ msg.timestamp ≤ c.endsAt ∧ msg.fromTable ≠ "ADMIN")

/-- `results[t] = (results[t] || 0) + p` on the integer-valued results object. -/
def bumpZ (acc : List (String × Int)) (t : String) (p : Int) : List (String × Int) :=
  match acc with
  | [] => [(t, p)]
  | (u, q) :: rest => if u = t then (u, q + p) :: rest else (u, q) :: bumpZ rest t p

/-- `most_messages` scoring: count the in-window messages of each table. -/
def resultsMostMessages (cm : List Message) : List (String × Int) :=
  cm.foldl (fun acc msg => bumpZ acc msg.fromTable 1) []

/-- The sum of the four reaction counters of one message. -/
def totalReactions (m : Message) : Int :=
  (m.reactions.heart : Int) + m.reactions.thumbsup + m.reactions.fire + m.reactions.laugh

/-- `most_reactions` scoring: sum the current tallies over each table's
in-window messages. -/
def resultsMostReactions (cm : List Message) : List (String × Int) :=
  cm.foldl (fun acc msg => bumpZ acc msg.fromTable (totalReactions msg)) []

/-- The `messageCounts` object of the `speed` branch: per table, the
running message count and the timestamp recorded when the count first
reached 5 (0 until then). -/
def speedCounts (cm : List Message) : List (String × (Int × Int)) :=
  cm.foldl (fun acc msg =>
    let cur := (acc.lookup msg.fromTable).getD (0, 0)
    let cnt := cur.1 + 1
    let ff := if cnt = 5 ∧ cur.2 = 0 then msg.timestamp else cur.2
    kvSet acc msg.fromTable (cnt, ff)) []

/-- `speed` scoring: tables whose `firstFive` timestamp is positive get it
as their score; the others are not eligible. -/
def resultsSpeed (cm : List Message) : List (String × Int) :=
  (speedCounts cm).foldl
    (fun acc e => if e.2.2 > 0 then acc ++ [(e.1, e.2.2)] else acc) []

/-- Winner selection for `most_messages` / `most_reactions`: strictly
highest score, first-encountered wins ties, starting from score 0. -/
def pickWinnerMax (results : List (String × Int)) : Option String × Int :=
  results.foldl (fun acc e => if e.2 > acc.2 then (some e.1, e.2) else acc) (none, 0)

/-- One step of the `speed` winner loop: take a positive score strictly
below the best so far (the initial best is `Infinity`, modelled as
`none`, which every positive score beats). -/
def speedPickStep (acc : Option String × Option Int) (e : String × Int) :
    Option String × Option Int :=
  match acc.2 with
  | none => if e.2 > 0 then (some e.1, some e.2) else acc
  | some v => if e.2 > 0 ∧ e.2 < v then (some e.1, some e.2) else acc

/-- Winner selection for `speed`: earliest positive `firstFive` timestamp,
first-encountered wins ties. -/
def pickWinnerSpeed (results : List (String × Int)) :
    Option String × Option Int :=
  results.foldl speedPickStep (none, none)

/-- The `results` map computed by `determineWinner` for a challenge. -/
def challengeResults (msgs : List Message) (c : Challenge) : List (String × Int) :=
  if c.ctype = "most_messages" then resultsMostMessages (challengeMessages msgs c)
  else if c.ctype = "most_reactions" then resultsMostReactions (challengeMessages msgs c)
  else if c.ctype = "speed" then resultsSpeed (challengeMessages msgs c)
  else []

/-- The winner chosen by `determineWinner`. -/
def challengeWinner (msgs : List Message) (c : Challenge) : Option String :=
  if c.ctype = "speed" then (pickWinnerSpeed (challengeResults msgs c)).1
  else (pickWinnerMax (challengeResults msgs c)).1

/-- The `determineWinner` helper: writes `results` and `winner` onto the
challenge and, when a winner exists, appends one badge-award record (badge
name/emojimark, award instant `now`, challenge title) to the winner's badge
list. -/
def determineWinner (now : Int) (msgs : List Message) (challengeId : String)
    (c : Challenge) (badges : List (String × List BadgeRec)) :
    Challenge × List (String × List BadgeRec) :=
  let results := challengeResults msgs c
  let winnerId := challengeWinner msgs c
  let c' := { c with results := results, winner := winnerId }
  match winnerId with
  | some w =>
      let bl := (badges.lookup w).getD []
      (c', kvSet badges w
        (bl ++ [⟨challengeId, c.badgeName, c.badgeEmoji, now, c.title⟩]))
  | none => (c', badges)

/-- A challenge record as stored after resolution: `determineWinner`'s
results and winner, with `active` flipped to false. -/
def resolvedChallenge (msgs : List Message) (c : Challenge) : Challenge :=
  { c with
      results := challengeResults msgs c,
      winner := challengeWinner msgs c,
      active := false }

/-- The whole persisted state the challenge endpoints touch. -/
structure ServerState where
  messages : List Message
  challenges : List (String × Challenge)
  activeIds : List String
  badges : List (String × List BadgeRec)
deriving DecidableEq, Repr

/-- The loop of the `challenges/active` handler: walk the active-id list;
a missing or inactive challenge is skipped, an expired active one is
resolved (winner determined, badge awarded, `active := false` persisted)
and NOT returned, a live one is pushed onto the output list. -/
def processActive (now : Int) (msgs : List Message) :
    List String → List (String × Challenge) → List (String × List BadgeRec) →
    List Challenge →
    List (String × Challenge) × List (String × List BadgeRec) × List Challenge
  | [], ch, bd, out => (ch, bd, out)
  | cid :: rest, ch, bd, out =>
    match ch.lookup cid with
    | none => processActive now msgs rest ch bd out
    | some c =>
      if c.active then
        if now > c.endsAt then
          let dw := determineWinner now msgs cid c bd
          processActive now msgs rest
            (kvSet (kvSet ch cid dw.1) cid { dw.1 with active := false })
            dw.2 out
        else processActive now msgs rest ch bd (out ++ [c])
      else processActive now msgs rest ch bd out

/-- The `challenges/active` handler: lazy expiry over the active-id list
(which itself is NOT modified), returning the still-live challenges. -/
def handleActive (now : Int) (st : ServerState) : ServerState × List Challenge :=
  let r := processActive now st.messages st.activeIds st.challenges st.badges []
  ({ st with challenges := r.1, badges := r.2.1 }, r.2.2)

/-- Result of fetching a single challenge (`challenges/:id`). -/
inductive GetResult : Type
  | notFound
  | found (c : Challenge)
deriving DecidableEq, Repr

/-- The `challenges/:id` handler: 404 when absent; an expired active
challenge is resolved before being returned. -/
def handleGetChallenge (now : Int) (st : ServerState) (cid : String) :
    ServerState × GetResult :=
  match st.challenges.lookup cid with
  | none => (st, .notFound)
  | some c =>
    if now > c.endsAt ∧ c.active then
      let dw := determineWinner now st.messages cid c st.badges
      let c' := { dw.1 with active := false }
      ({ st with
          challenges := kvSet (kvSet st.challenges cid dw.1) cid c',
          badges := dw.2 }, .found c')
    else (st, .found c)

/-- Result of `admin/end-challenge/:id`. -/
inductive EndResult : Type
  | notFound
  | alreadyEnded
  | ended (winner : Option String) (results : List (String × Int))
deriving DecidableEq, Repr

/-- The `admin/end-challenge/:id` handler: 404 when absent, "already
ended" when inactive, otherwise resolve and remove the id from the
active-id list. -/
def handleEndChallenge (now : Int) (st : ServerState) (cid : String) :
    ServerState × EndResult :=
  match st.challenges.lookup cid with
  | none => (st, .notFound)
  | some c =>
    if ¬ c.active then (st, .alreadyEnded)
    else
      let dw := determineWinner now st.messages cid c st.badges
      let c' := { dw.1 with active := false }
      ({ st with
          challenges := kvSet (kvSet st.challenges cid dw.1) cid c',
          badges := dw.2,
          activeIds := st.activeIds.filter (fun i => i ≠ cid) },
       .ended c'.winner c'.results)

/-- Validation failures of `admin/create-challenge`. -/
inductive CreateError : Type
  | missingFields
  | invalidType
  | invalidDuration
deriving DecidableEq, Repr

/-- The `admin/create-challenge` handler.  A falsy required field (empty
string, zero duration) is "Campi obbligatori mancanti"; the type must be
one of the three scoring types; the duration must lie in 1..60;
`endsAt = now + durationMinutes * 60 * 1000`; the new id is pushed onto
the active-id list. -/
def createChallenge (now : Int) (cid : String) (title description ty : String)
    (durationMinutes : Int) (badgeName badgeEmoji : String) (st : ServerState) :
    Except CreateError (ServerState × Challenge) :=
  if title = "" ∨ ty = "" ∨ durationMinutes = 0 ∨ badgeName = "" ∨ badgeEmoji = "" then
    .error .missingFields
  else if ¬ (ty = "most_messages" ∨ ty = "most_reactions" ∨ ty = "speed") then
    .error .invalidType
  else if durationMinutes < 1 ∨ durationMinutes > 60 then
    .error .invalidDuration
  else
    let c : Challenge :=
      ⟨cid, title, description, ty, now, now + durationMinutes * 60 * 1000,
        true, badgeName, badgeEmoji, none, [], []⟩
    .ok ({ st with
            challenges := kvSet st.challenges cid c,
            activeIds := st.activeIds ++ [cid] }, c)

/-! ## Concrete challenge scenarios -/

/-- A `most_messages` challenge with a one-minute window starting at 0. -/
def demoChallenge : Challenge :=
  ⟨"ch1", "Sfida", "", "most_messages", 0, 60000, true, "Speedy", "🏆", none, [], []⟩

/-- Three messages from A1 and five from B2, all inside the window. -/
def demoMessages : List Message :=
  [mkMessage "A1" 1000, mkMessage "A1" 2000, mkMessage "A1" 3000,
   mkMessage "B2" 1500, mkMessage "B2" 2500, mkMessage "B2" 3500,
   mkMessage "B2" 4500, mkMessage "B2" 5500]

/-- The server state holding the demo challenge, active, with no badges. -/
def demoState : ServerState :=
  ⟨demoMessages, [("ch1", demoChallenge)], ["ch1"], []⟩

/-- C4: lazily resolving the expired `most_messages` demo challenge (3
messages from A1, 5 from B2, all in-window) stores winner B2 and results
A1 ↦ 3, B2 ↦ 5, flips the active flag, and appends exactly one
badge-award record with the challenge's badge name, emoji and title to
B2's badge list. -/
theorem most_messages_scenario :
    (handleActive 70000 demoState).1.challenges.lookup "ch1"
      = some { demoChallenge with
          results := [("A1", 3), ("B2", 5)],
          winner := some "B2",
          active := false } ∧
    (handleActive 70000 demoState).1.badges.lookup "B2"
      = some [⟨"ch1", "Speedy", "🏆", 70000, "Sfida"⟩] ∧
    (handleActive 70000 demoState).2 = [] := by
  refine ⟨?_, ?_, ?_⟩ <;> decide

/-- A `speed` challenge with window from 0 to 100000 ms. -/
def speedChallenge : Challenge :=
  ⟨"ch2", "Velocita", "", "speed", 0, 100000, true, "Lampo", "⚡", none, [], []⟩

/-- X's five in-window messages stored before Y's six; Z has only four. -/
def speedMsgsXFirst : List Message :=
  [mkMessage "X" 0, mkMessage "X" 1000, mkMessage "X" 2000,
   mkMessage "X" 3000, mkMessage "X" 4000,
   mkMessage "Y" 0, mkMessage "Y" 1000, mkMessage "Y" 2000,
   mkMessage "Y" 3000, mkMessage "Y" 4000, mkMessage "Y" 5000,
   mkMessage "Z" 0, mkMessage "Z" 1000, mkMessage "Z" 2000, mkMessage "Z" 3000]

/-- The same messages with Y's six stored before X's five. -/
def speedMsgsYFirst : List Message :=
  [mkMessage "Y" 0, mkMessage "Y" 1000, mkMessage "Y" 2000,
   mkMessage "Y" 3000, mkMessage "Y" 4000, mkMessage "Y" 5000,
   mkMessage "X" 0, mkMessage "X" 1000, mkMessage "X" 2000,
   mkMessage "X" 3000, mkMessage "X" 4000]

/-- C5 counterexample: with X sending 5 messages at t = 0..4 s and Y
sending 6 at t = 0..5 s (all in-window), both reach their 5th message at
t = 4 s, so the claim's "X wins" fails: when Y's messages precede X's in
the message store, Y wins the tie. -/
theorem speed_claim_counterexample :
    challengeWinner speedMsgsYFirst speedChallenge = some "Y" ∧
    ¬ challengeWinner speedMsgsYFirst speedChallenge = some "X" := by
  refine ⟨?_, ?_⟩ <;> decide

theorem speed_fold_preserve (l : List (String × Int)) :
    ∀ (w0 : String) (v0 : Int),
      ∃ w v, l.foldl speedPickStep (some w0, some v0) = (some w, some v) ∧ v ≤ v0 := by
  induction l with
  | nil => intro w0 v0; exact ⟨w0, v0, rfl, le_rfl⟩
  | cons e l ih =>
    intro w0 v0
    by_cases hc : e.2 > 0 ∧ e.2 < v0
    · rw [List.foldl_cons]
      have hstep : speedPickStep (some w0, some v0) e = (some e.1, some e.2) := by
        simp [speedPickStep, hc]
      rw [hstep]
      obtain ⟨w, v, hv, hle⟩ := ih e.1 e.2
      exact ⟨w, v, hv, le_trans hle (le_of_lt hc.2)⟩
    · rw [List.foldl_cons]
      have hstep : speedPickStep (some w0, some v0) e = (some w0, some v0) := by
        simp [speedPickStep, hc]
      rw [hstep]
      exact ih w0 v0

theorem speedPickStep_shape (acc : Option String × Option Int) (e : String × Int)
    (h : acc.2 = none ∨ ∃ w0 v0, acc = (some w0, some v0)) :
    (speedPickStep acc e).2 = none ∨
      ∃ w v, speedPickStep acc e = (some w, some v) := by
  rcases h with hn | ⟨w0, v0, rfl⟩
  · by_cases hp : e.2 > 0
    · right
      exact ⟨e.1, e.2, by simp [speedPickStep, hn, hp]⟩
    · left
      simp [speedPickStep, hn, hp]
  · by_cases hc : e.2 > 0 ∧ e.2 < v0
    · right
      exact ⟨e.1, e.2, by simp [speedPickStep, hc]⟩
    · right
      exact ⟨w0, v0, by simp [speedPickStep, hc]⟩

theorem speed_fold_min (l : List (String × Int)) :
    ∀ acc : Option String × Option Int,
      (acc.2 = none ∨ ∃ w0 v0, acc = (some w0, some v0)) →
      ∀ (t : String) (s : Int), (t, s) ∈ l → 0 < s →
      ∃ w v, l.foldl speedPickStep acc = (some w, some v) ∧ v ≤ s := by
  induction l with
  | nil => intro acc _ t s hmem; simp at hmem
  | cons e l ih =>
    intro acc hsh t s hmem hs
    rcases List.mem_cons.mp hmem with heq | hmem'
    · subst heq
      rcases hsh with hn | ⟨w0, v0, rfl⟩
      · have hstep : speedPickStep acc (t, s) = (some t, some s) := by
          simp [speedPickStep, hn, hs]
        rw [List.foldl_cons, hstep]
        exact speed_fold_preserve l t s
      · by_cases hlt : s < v0
        · have hstep : speedPickStep (some w0, some v0) (t, s) = (some t, some s) := by
            simp [speedPickStep, hs, hlt]
          rw [List.foldl_cons, hstep]
          exact speed_fold_preserve l t s
        · have hstep : speedPickStep (some w0, some v0) (t, s) = (some w0, some v0) := by
            simp [speedPickStep, hs, hlt]
          rw [List.foldl_cons, hstep]
          obtain ⟨w, v, hv, hle⟩ := speed_fold_preserve l w0 v0
          exact ⟨w, v, hv, le_trans hle (le_of_not_lt hlt)⟩
    · rw [List.foldl_cons]
      exact ih (speedPickStep acc e) (speedPickStep_shape acc e hsh) t s hmem' hs

/-- C5 (amended): in a `speed` challenge each table's eligible score is
the (positive) timestamp of its 5th qualifying in-window message in store
order, tables with fewer than 5 such messages have no eligible score, and
the winner attains the minimum eligible score (ties broken by results
order).  Concretely, with X's 5 messages at t = 0..4 s stored before Y's
6 at t = 0..5 s and Z sending only 4, the results are exactly X ↦ 4000,
Y ↦ 4000 and X wins. -/
theorem speed_challenge_amended :
    (challengeResults speedMsgsXFirst speedChallenge = [("X", 4000), ("Y", 4000)] ∧
     challengeWinner speedMsgsXFirst speedChallenge = some "X") ∧
    (∀ (results : List (String × Int)) (t : String) (s : Int),
      (t, s) ∈ results → 0 < s →
      ∃ w v, pickWinnerSpeed results = (some w, some v) ∧ v ≤ s) := by
  constructor
  · exact ⟨by decide, by decide⟩
  · intro results t s hmem hs
    exact speed_fold_min results (none, none) (Or.inl rfl) t s hmem hs

/-- Witness for the amended C5 theorem at a concrete input. -/
theorem speed_challenge_witness :
    ∃ w v, pickWinnerSpeed [("X", 4000)] = (some w, some v) ∧ v ≤ 4000 :=
  speed_challenge_amended.2 [("X", 4000)] "X" 4000 (by decide) (by decide)

/-! ## Lazy expiry of challenges -/

theorem kvSet_lookup_self {β : Type} (l : List (String × β)) (k : String) (v : β) :
    (kvSet l k v).lookup k = some v := by
  induction l with
  | nil => simp [kvSet]
  | cons e rest ih =>
    obtain ⟨k', v'⟩ := e
    by_cases h : k' = k
    · subst h
      simp [kvSet]
    · have hb : (k == k') = false := beq_eq_false_iff_ne.mpr (Ne.symm h)
      simp [kvSet, h, List.lookup, hb, ih]

theorem kvSet_lookup_ne {β : Type} {l : List (String × β)} {k k' : String} {v : β}
    (h : ¬ k' = k) : (kvSet l k v).lookup k' = l.lookup k' := by
  have hb' : (k' == k) = false := beq_eq_false_iff_ne.mpr h
  induction l with
  | nil => simp [kvSet, List.lookup, hb']
  | cons e rest ih =>
    obtain ⟨k'', v''⟩ := e
    by_cases hk : k'' = k
    · subst hk
      simp [kvSet, List.lookup, hb']
    · by_cases hk2 : k' = k''
      · subst hk2
        simp [kvSet, hk, List.lookup]
      · have hb2 : (k' == k'') = false := beq_eq_false_iff_ne.mpr hk2
        simp [kvSet, hk, List.lookup, hb2, ih]

theorem determineWinner_fst (now : Int) (msgs : List Message) (cid : String)
    (c : Challenge) (bd : List (String × List BadgeRec)) :
    (determineWinner now msgs cid c bd).1
      = { c with
          results := challengeResults msgs c,
          winner := challengeWinner msgs c } := by
  cases hw : challengeWinner msgs c <;> simp [determineWinner, hw]

theorem determineWinner_resolved (now : Int) (msgs : List Message) (cid : String)
    (c : Challenge) (bd : List (String × List BadgeRec)) :
    { (determineWinner now msgs cid c bd).1 with active := false }
      = resolvedChallenge msgs c := by
  rw [determineWinner_fst]
  rfl

theorem processActive_out (now : Int) (msgs : List Message) :
    ∀ (ids : List String) ch bd (out : List Challenge),
      (∀ c ∈ out, c.active = true ∧ ¬ now > c.endsAt) →
      ∀ c ∈ (processActive now msgs ids ch bd out).2.2,
        c.active = true ∧ ¬ now > c.endsAt := by
  intro ids
  induction ids with
  | nil =>
    intro ch bd out hout
    simpa [processActive] using hout
  | cons cid rest ih =>
    intro ch bd out hout
    simp only [processActive]
    cases hb : ch.lookup cid with
    | none => exact ih ch bd out hout
    | some c =>
      by_cases hact : c.active
      · by_cases hexp : now > c.endsAt
        · simp only [hact, hexp, if_true, if_pos]
          exact ih _ _ out hout
        · simp only [hact, hexp, if_true, if_false, if_neg, not_false_eq_true]
          refine ih ch bd (out ++ [c]) ?_
          intro d hd
          rcases List.mem_append.mp hd with hd | hd
          · exact hout d hd
          · have hdc : d = c := by simpa using hd
            subst hdc
            exact ⟨hact, hexp⟩
      · simp only [Bool.not_eq_true] at hact
        simp only [hact, Bool.false_eq_true, if_false]
        exact ih ch bd out hout

theorem processActive_inactive (now : Int) (msgs : List Message) :
    ∀ (ids : List String) ch bd out (cid : String) (c : Challenge),
      ch.lookup cid = some c → c.active = false →
      (processActive now msgs ids ch bd out).1.lookup cid = some c := by
  intro ids
  induction ids with
  | nil =>
    intro ch bd out cid c hb _
    simpa [processActive] using hb
  | cons h rest ih =>
    intro ch bd out cid c hb hina
    simp only [processActive]
    cases hb2 : ch.lookup h with
    | none => exact ih ch bd out cid c hb hina
    | some c2 =>
      by_cases hact : c2.active
      · by_cases hexp : now > c2.endsAt
        · simp only [hact, hexp, if_true, if_pos]
          have hne : ¬ cid = h := by
            intro he
            subst he
            rw [hb] at hb2
            injection hb2 with h3
            subst h3
            rw [hina] at hact
            exact Bool.noConfusion hact
          refine ih _ _ out cid c ?_ hina
          rw [kvSet_lookup_ne hne, kvSet_lookup_ne hne]
          exact hb
        · simp only [hact, hexp, if_true, if_neg, not_false_eq_true, if_false]
          exact ih ch bd (out ++ [c2]) cid c hb hina
      · simp only [Bool.not_eq_true] at hact
        simp only [hact, Bool.false_eq_true, if_false]
        exact ih ch bd out cid c hb hina

theorem processActive_resolves (now : Int) (msgs : List Message) :
    ∀ (ids : List String) ch bd out (cid : String) (c : Challenge),
      cid ∈ ids → ch.lookup cid = some c → c.active = true → now > c.endsAt →
      (processActive now msgs ids ch bd out).1.lookup cid
        = some (resolvedChallenge msgs c) := by
  intro ids
  induction ids with
  | nil =>
    intro ch bd out cid c hmem
    simp at hmem
  | cons h rest ih =>
    intro ch bd out cid c hmem hb hact hexp
    simp only [processActive]
    by_cases hcid : cid = h
    · subst hcid
      rw [hb]
      simp only [hact, hexp, if_true, if_pos]
      refine processActive_inactive now msgs rest _ _ out cid
        (resolvedChallenge msgs c) ?_ rfl
      rw [kvSet_lookup_self, determineWinner_resolved]
    · have hmem' : cid ∈ rest := by
        rcases List.mem_cons.mp hmem with he | hm
        · exact absurd he hcid
        · exact hm
      cases hb2 : ch.lookup h with
      | none => exact ih ch bd out cid c hmem' hb hact hexp
      | some c2 =>
        by_cases hact2 : c2.active
        · by_cases hexp2 : now > c2.endsAt
          · simp only [hact2, hexp2, if_true, if_pos]
            refine ih _ _ out cid c hmem' ?_ hact hexp
            rw [kvSet_lookup_ne hcid, kvSet_lookup_ne hcid]
            exact hb
          · simp only [hact2, hexp2, if_true, if_neg, not_false_eq_true, if_false]
            exact ih ch bd (out ++ [c2]) cid c hmem' hb hact hexp
        · simp only [Bool.not_eq_true] at hact2
          simp only [hact2, Bool.false_eq_true, if_false]
          exact ih ch bd out cid c hmem' hb hact hexp

/-- C3: whenever the active-challenge list or a single challenge is
fetched, every challenge with `now > endsAt` and `active == true` is
resolved (winner and results computed by `determineWinner`, `active` set
to false) before being returned, and such a challenge is never returned
as active; a manual end removes the challenge id from the active-id list,
while lazy expiry on read leaves the active-id list unchanged and only
flips the `active` flag. -/
theorem lazy_expiry_resolution (now : Int) (st : ServerState) (cid : String)
    (c : Challenge) :
    (∀ d ∈ (handleActive now st).2, d.active = true ∧ ¬ now > d.endsAt) ∧
    ((handleActive now st).1.activeIds = st.activeIds) ∧
    (cid ∈ st.activeIds → st.challenges.lookup cid = some c →
      c.active = true → now > c.endsAt →
      (handleActive now st).1.challenges.lookup cid
        = some (resolvedChallenge st.messages c)) ∧
    (∀ d, (handleGetChallenge now st cid).2 = .found d →
      d.active = true → ¬ now > d.endsAt) ∧
    (st.challenges.lookup cid = some c → c.active = true → now > c.endsAt →
      (handleGetChallenge now st cid).2 = .found (resolvedChallenge st.messages c) ∧
      (handleGetChallenge now st cid).1.challenges.lookup cid
        = some (resolvedChallenge st.messages c)) ∧
    (st.challenges.lookup cid = some c → c.active = true →
      cid ∉ (handleEndChallenge now st cid).1.activeIds) := by
  refine ⟨?_, rfl, ?_, ?_, ?_, ?_⟩
  · intro d hd
    exact processActive_out now st.messages st.activeIds st.challenges st.badges []
      (by intro x hx; simp at hx) d hd
  · intro hmem hb hact hexp
    exact processActive_resolves now st.messages st.activeIds st.challenges
      st.badges [] cid c hmem hb hact hexp
  · intro d hfound hact
    cases hb : st.challenges.lookup cid with
    | none =>
      simp only [handleGetChallenge, hb] at hfound
      exact absurd hfound (by simp)
    | some c0 =>
      by_cases hcond : now > c0.endsAt ∧ c0.active
      · simp only [handleGetChallenge, hb, if_pos hcond] at hfound
        injection hfound with hd
        rw [← hd] at hact
        exact absurd hact (by simp)
      · simp only [handleGetChallenge, hb, if_neg hcond] at hfound
        injection hfound with hd
        subst hd
        intro hexp
        exact hcond ⟨hexp, hact⟩
  · intro hb hact hexp
    have hcond : now > c.endsAt ∧ c.active := ⟨hexp, hact⟩
    constructor
    · simp only [handleGetChallenge, hb, if_pos hcond]
      rw [determineWinner_resolved]
    · simp only [handleGetChallenge, hb, if_pos hcond]
      rw [kvSet_lookup_self, determineWinner_resolved]
  · intro hb hact
    simp only [handleEndChallenge, hb]
    rw [if_neg (by simp [hact])]
    simp [List.mem_filter]

/-- Witness for the C3 theorem at a concrete input (the demo challenge of
the C4 scenario, resolved lazily, and the same challenge ended manually). -/
theorem lazy_expiry_witness :
    (handleActive 70000 demoState).1.challenges.lookup "ch1"
      = some (resolvedChallenge demoMessages demoChallenge) ∧
    "ch1" ∉ (handleEndChallenge 70000 demoState "ch1").1.activeIds :=
  ⟨(lazy_expiry_resolution 70000 demoState "ch1" demoChallenge).2.2.1
      (by decide) (by decide) rfl (by decide),
   (lazy_expiry_resolution 70000 demoState "ch1" demoChallenge).2.2.2.2.2
      (by decide) rfl⟩

/-- C10: ending an unknown challenge is a 404-equivalent; ending an
already-inactive challenge is the "already ended" validation error and
leaves the state unchanged; creating a challenge with an unknown scoring
type, or with a duration outside 1..60 minutes, is a validation error. -/
theorem challenge_error_handling (now : Int) (st : ServerState) (cid : String)
    (c : Challenge) (title description ty : String) (durationMinutes : Int)
    (badgeName badgeEmoji : String) :
    (st.challenges.lookup cid = none →
      handleEndChallenge now st cid = (st, .notFound)) ∧
    (st.challenges.lookup cid = some c → c.active = false →
      handleEndChallenge now st cid = (st, .alreadyEnded)) ∧
    (¬ (ty = "most_messages" ∨ ty = "most_reactions" ∨ ty = "speed") →
      ∃ e, createChallenge now cid title description ty durationMinutes
        badgeName badgeEmoji st = .error e) ∧
    ((durationMinutes < 1 ∨ durationMinutes > 60) →
      ∃ e, createChallenge now cid title description ty durationMinutes
        badgeName badgeEmoji st = .error e) := by
  refine ⟨?_, ?_, ?_, ?_⟩
  · intro hb
    simp [handleEndChallenge, hb]
  · intro hb hina
    simp [handleEndChallenge, hb, hina]
  · intro hty
    by_cases h1 : title = "" ∨ ty = "" ∨ durationMinutes = 0 ∨
        badgeName = "" ∨ badgeEmoji = ""
    · exact ⟨.missingFields, by simp [createChallenge, h1]⟩
    · exact ⟨.invalidType, by simp [createChallenge, h1, hty]⟩
  · intro hdur
    by_cases h1 : title = "" ∨ ty = "" ∨ durationMinutes = 0 ∨
        badgeName = "" ∨ badgeEmoji = ""
    · exact ⟨.missingFields, by simp [createChallenge, h1]⟩
    · by_cases h2 : ty = "most_messages" ∨ ty = "most_reactions" ∨ ty = "speed"
      · exact ⟨.invalidDuration, by simp [createChallenge, h1, h2, hdur]⟩
      · exact ⟨.invalidType, by simp [createChallenge, h1, h2]⟩

/-- The empty server state. -/
def emptyState : ServerState := ⟨[], [], [], []⟩

/-- A state holding only the demo challenge already marked inactive. -/
def endedState : ServerState :=
  ⟨[], [("ch1", { demoChallenge with active := false })], [], []⟩

/-- Witness for the C10 theorem at concrete inputs. -/
theorem challenge_error_handling_witness :
    handleEndChallenge 0 emptyState "nope" = (emptyState, .notFound) ∧
    handleEndChallenge 0 endedState "ch1" = (endedState, .alreadyEnded) ∧
    (∃ e, createChallenge 0 "c9" "T" "" "bogus" 5 "B" "E" emptyState = .error e) ∧
    (∃ e, createChallenge 0 "c9" "T" "" "speed" 61 "B" "E" emptyState = .error e) :=
  ⟨(challenge_error_handling 0 emptyState "nope"
      demoChallenge "T" "" "bogus" 5 "B" "E").1 rfl,
   (challenge_error_handling 0 endedState "ch1"
      { demoChallenge with active := false } "T" "" "bogus" 5 "B" "E").2.1
      (by decide) rfl,
   (challenge_error_handling 0 emptyState "c9"
      demoChallenge "T" "" "bogus" 5 "B" "E").2.2.1 (by decide),
   (challenge_error_handling 0 emptyState "c9"
      demoChallenge "T" "" "speed" 61 "B" "E").2.2.2 (Or.inr (by decide))⟩

/-! ## Presence tracking (`add-user-to-table`) -/

/-- A user record of the per-table Deno presence lists
(`table:{id}:users`); `lastActive` may be absent on old records, in which
case the handler falls back to `joinedAt`. -/
structure UserRec where
  firstName : String
  lastName : String
  joinedAt : Int
  lastActive : Option Int
deriving DecidableEq, Repr

/-- `new Date(user.lastActive || user.joinedAt)`. -/
def effLastActive (u : UserRec) : Int :=
  u.lastActive.getD u.joinedAt

/-- Refresh the `lastActive` field of the first user matching by first and
last name (JS `findIndex` + in-place assignment). -/
def refreshFirst (now : Int) (fn ln : String) :
    List UserRec → Option (List UserRec)
  | [] => none
  | u :: rest =>
    if u.firstName = fn ∧ u.lastName = ln then
      some ({ u with lastActive := some now } :: rest)
    else
      (refreshFirst now fn ln rest).map (u :: ·)

/-- The Deno `add-user-to-table` handler: read the JOINING table's user
list, drop users there whose inactivity reaches 10 minutes
(`diffMinutes < 10` is kept, i.e. `now - lastActive < 600000` ms), then
refresh the matching user's `lastActive` or append a new record; only the
joining table's list is ever written. -/
def denoAddUserToTable (now : Int) (tables : List (String × List UserRec))
    (tn fn ln : String) : List (String × List UserRec) :=
  let currentUsers := (tables.lookup tn).getD []
  let activeUsers := currentUsers.filter (fun u => now - effLastActive u < 600000)
  let updated :=
    match refreshFirst now fn ln activeUsers with
    | some us => us
    | none => activeUsers ++ [⟨fn, ln, now, some now⟩]
  kvSet tables tn updated

/-- A row of the Express backend's global `User` table. -/
structure EUser where
  tableId : String
  firstName : String
  lastName : String
  lastActive : Int
deriving DecidableEq, Repr

/-- Refresh the first user matching (table, first name, last name)
(`findFirst` + `update`). -/
def expressRefreshFirst (now : Int) (tn fn ln : String) :
    List EUser → Option (List EUser)
  | [] => none
  | u :: rest =>
    if u.tableId = tn ∧ u.firstName = fn ∧ u.lastName = ln then
      some ({ u with lastActive := now } :: rest)
    else
      (expressRefreshFirst now tn fn ln rest).map (u :: ·)

/-- The Express `add-user-to-table` handler: `deleteMany` where
`lastActive < now - 10 min` across ALL tables, then upsert the user. -/
def expressAddUserToTable (now : Int) (users : List EUser)
    (tn fn ln : String) : List EUser :=
  let kept := users.filter (fun u => ¬ u.lastActive < now - 600000)
  match expressRefreshFirst now tn fn ln kept with
  | some us => us
  | none => kept ++ [⟨tn, fn, ln, now⟩]

/-- A user last active at instant 0 (stale at any `now ≥ 600000`). -/
def staleUser : UserRec := ⟨"Old", "Guy", 0, some 0⟩

/-- C9 counterexample: on the Deno server, a join on table 2 does NOT
purge the stale user of table 1 (inactive for far more than 10 minutes):
table 1's list is returned unchanged. -/
theorem reap_scope_counterexample :
    (denoAddUserToTable 10000000 [("1", [staleUser])] "2" "Ann" "Bee").lookup "1"
      = some [staleUser] ∧
    10000000 - effLastActive staleUser > 600000 := by
  refine ⟨?_, ?_⟩ <;> decide

theorem refreshFirst_mem {now : Int} {fn ln : String} :
    ∀ {l l' : List UserRec}, refreshFirst now fn ln l = some l' →
      ∀ u ∈ l', u ∈ l ∨ ∃ v, v ∈ l ∧ u = { v with lastActive := some now } := by
  intro l
  induction l with
  | nil =>
    intro l' h
    simp [refreshFirst] at h
  | cons v rest ih =>
    intro l' h u hu
    by_cases hv : v.firstName = fn ∧ v.lastName = ln
    · rw [refreshFirst, if_pos hv] at h
      injection h with h'
      subst h'
      rcases List.mem_cons.mp hu with he | hm
      · exact Or.inr ⟨v, List.mem_cons_self v rest, he⟩
      · exact Or.inl (List.mem_cons_of_mem v hm)
    · rw [refreshFirst, if_neg hv] at h
      cases hr : refreshFirst now fn ln rest with
      | none =>
        rw [hr] at h
        simp at h
      | some rest' =>
        rw [hr] at h
        have h2 : v :: rest' = l' := by simpa using h
        subst h2
        rcases List.mem_cons.mp hu with he | hm
        · exact Or.inl (he ▸ List.mem_cons_self v rest)
        · rcases ih hr u hm with h1 | ⟨w, hw, he⟩
          · exact Or.inl (List.mem_cons_of_mem v h1)
          · exact Or.inr ⟨w, List.mem_cons_of_mem v hw, he⟩

theorem expressRefreshFirst_mem {now : Int} {tn fn ln : String} :
    ∀ {l l' : List EUser}, expressRefreshFirst now tn fn ln l = some l' →
      ∀ u ∈ l', u ∈ l ∨ ∃ v, v ∈ l ∧ u = { v with lastActive := now } := by
  intro l
  induction l with
  | nil =>
    intro l' h
    simp [expressRefreshFirst] at h
  | cons v rest ih =>
    intro l' h u hu
    by_cases hv : v.tableId = tn ∧ v.firstName = fn ∧ v.lastName = ln
    · rw [expressRefreshFirst, if_pos hv] at h
      injection h with h'
      subst h'
      rcases List.mem_cons.mp hu with he | hm
      · exact Or.inr ⟨v, List.mem_cons_self v rest, he⟩
      · exact Or.inl (List.mem_cons_of_mem v hm)
    · rw [expressRefreshFirst, if_neg hv] at h
      cases hr : expressRefreshFirst now tn fn ln rest with
      | none =>
        rw [hr] at h
        simp at h
      | some rest' =>
        rw [hr] at h
        have h2 : v :: rest' = l' := by simpa using h
        subst h2
        rcases List.mem_cons.mp hu with he | hm
        · exact Or.inl (he ▸ List.mem_cons_self v rest)
        · rcases ih hr u hm with h1 | ⟨w, hw, he⟩
          · exact Or.inl (List.mem_cons_of_mem v h1)
          · exact Or.inr ⟨w, List.mem_cons_of_mem v hw, he⟩

/-- C9 (amended): on every join, the Deno server purges users inactive
for 10 minutes or more only WITHIN the joining table — afterwards every
user stored for the joining table has been active within the last 10
minutes — and leaves every other table's list untouched; the purge
reaches across every table only in the Express backend, where after a
join no remaining user is strictly older than 10 minutes. -/
theorem reap_on_join (now : Int) (tables : List (String × List UserRec))
    (tn fn ln tn' : String) (users : List EUser) :
    (∀ u ∈ ((denoAddUserToTable now tables tn fn ln).lookup tn).getD [],
      now - effLastActive u < 600000) ∧
    (¬ tn' = tn →
      (denoAddUserToTable now tables tn fn ln).lookup tn' = tables.lookup tn') ∧
    (∀ u ∈ expressAddUserToTable now users tn fn ln,
      ¬ u.lastActive < now - 600000) := by
  refine ⟨?_, ?_, ?_⟩
  · intro u hu
    rw [denoAddUserToTable] at hu
    rw [kvSet_lookup_self] at hu
    simp only [Option.getD_some] at hu
    set activeUsers :=
      ((tables.lookup tn).getD []).filter (fun u => now - effLastActive u < 600000)
      with hactive
    have hfresh : ∀ w ∈ activeUsers, now - effLastActive w < 600000 := by
      intro w hw
      have := (List.mem_filter.mp hw).2
      simpa using this
    cases hr : refreshFirst now fn ln activeUsers with
    | some us =>
      rw [hr] at hu
      rcases refreshFirst_mem hr u hu with h1 | ⟨v, _, he⟩
      · exact hfresh u h1
      · subst he
        simp [effLastActive]
    | none =>
      rw [hr] at hu
      rcases List.mem_append.mp hu with h1 | h1
      · exact hfresh u h1
      · have : u = ⟨fn, ln, now, some now⟩ := by simpa using h1
        subst this
        simp [effLastActive]
  · intro hne
    rw [denoAddUserToTable, kvSet_lookup_ne hne]
  · intro u hu
    rw [expressAddUserToTable] at hu
    set kept := users.filter (fun u => ¬ u.lastActive < now - 600000) with hkept
    have hfresh : ∀ w ∈ kept, ¬ w.lastActive < now - 600000 := by
      intro w hw
      have := (List.mem_filter.mp hw).2
      simpa using this
    cases hr : expressRefreshFirst now tn fn ln kept with
    | some us =>
      rw [hr] at hu
      rcases expressRefreshFirst_mem hr u hu with h1 | ⟨v, _, he⟩
      · exact hfresh u h1
      · subst he
        simp
    | none =>
      rw [hr] at hu
      rcases List.mem_append.mp hu with h1 | h1
      · exact hfresh u h1
      · have : u = ⟨tn, fn, ln, now⟩ := by simpa using h1
        subst this
        simp

/-- Witness for the amended C9 theorem at a concrete input. -/
theorem reap_on_join_witness :
    (denoAddUserToTable 1000 [("9", [staleUser])] "5" "Ann" "Bee").lookup "9"
      = ([("9", [staleUser])] : List (String × List UserRec)).lookup "9" :=
  (reap_on_join 1000 [("9", [staleUser])] "5" "Ann" "Bee" "9" []).2.1 (by decide)
